import Mathlib

/-!
Shallow embedding of `generate_schedule.py` (weekly-schedule-generator).

Dates are represented by their proleptic Gregorian ordinal (day 1 =
January 1 of year 1), exactly as CPython `datetime` does internally.
The calendar arithmetic below is transcribed from CPython `datetime.py`
(`_ymd2ord`, `_ord2ymd`, `_isoweek1monday`, `date.isocalendar`) and
CPython `_strptime.py` (`_calc_julian_from_V` plus the regular
expressions that the format directives `%G`, `%V`, `%u` compile to),
because the repository calls those library routines.

Note Lean `Int` division and modulo are Euclidean; for the positive
divisors used here (4, 100, 400, 7, ...) they agree with Python floor
division and modulo.
-/

/-- From CPython datetime: a year is a leap year iff divisible by 4 and
not by 100 unless also by 400. -/
def isLeap (y : Int) : Bool :=
  y % 4 == 0 && (y % 100 != 0 || y % 400 == 0)

/-- From CPython datetime `_DAYS_IN_MONTH` plus the February leap
adjustment. Months outside 1..12 do not occur in this development. -/
def daysInMonth (y : Int) (m : Int) : Int :=
  match m with
  | 1 => 31
  | 2 => if isLeap y then 29 else 28
  | 3 => 31
  | 4 => 30
  | 5 => 31
  | 6 => 30
  | 7 => 31
  | 8 => 31
  | 9 => 30
  | 10 => 31
  | 11 => 30
  | 12 => 31
  | _ => 0

/-- From CPython datetime `_DAYS_BEFORE_MONTH` plus the leap adjustment
for months after February (`_days_before_month`). -/
def daysBeforeMonth (y : Int) (m : Int) : Int :=
  (match m with
   | 1 => 0
   | 2 => 31
   | 3 => 59
   | 4 => 90
   | 5 => 120
   | 6 => 151
   | 7 => 181
   | 8 => 212
   | 9 => 243
   | 10 => 273
   | 11 => 304
   | 12 => 334
   | _ => 0)
  + (if m > 2 && isLeap y then 1 else 0)

/-- CPython datetime `_days_before_year`: days before January 1 of `y`. -/
def daysBeforeYear (y : Int) : Int :=
  365 * (y - 1) + (y - 1) / 4 - (y - 1) / 100 + (y - 1) / 400

/-- CPython datetime `_ymd2ord`: proleptic Gregorian ordinal of a date,
with day 1 = January 1 of year 1. -/
def ymd2ord (y m d : Int) : Int :=
  daysBeforeYear y + daysBeforeMonth y m + d

/-- CPython `date.isoweekday` on an ordinal: Monday = 1 .. Sunday = 7
(`self.toordinal() % 7 or 7`). -/
def isoweekdayOfOrd (n : Int) : Int :=
  if n % 7 == 0 then 7 else n % 7

/-- CPython datetime `_isoweek1monday`: ordinal of the Monday starting
ISO week 1 of year `y` (the week containing the first Thursday). -/
def isoweek1monday (y : Int) : Int :=
  let firstday := ymd2ord y 1 1
  let firstweekday := (firstday + 6) % 7
  let week1monday := firstday - firstweekday
  if firstweekday > 3 then week1monday + 7 else week1monday

/-- Body of CPython `date.isocalendar`, abstracted over the calendar
year of the date (`self._year`) and its ordinal. Returns
(ISO year, ISO week, ISO weekday). -/
def isocalendarAux (year today : Int) : Int × Int × Int :=
  let week1monday := isoweek1monday year
  let week := (today - week1monday) / 7
  let day := (today - week1monday) % 7
  if week < 0 then
    let year1 := year - 1
    let week1monday1 := isoweek1monday year1
    (year1, (today - week1monday1) / 7 + 1, (today - week1monday1) % 7 + 1)
  else if week >= 52 && today >= isoweek1monday (year + 1) then
    (year + 1, 1, day + 1)
  else
    (year, week + 1, day + 1)

/-- CPython `date(y, m, d).isocalendar()`. -/
def isocalendarYMD (y m d : Int) : Int × Int × Int :=
  isocalendarAux y (ymd2ord y m d)

/-- Line 77 of generate_schedule.py:
`last_week = datetime.date(year, 12, 31).isocalendar()[1]`. -/
def lastWeek (year : Int) : Int :=
  (isocalendarYMD year 12 31).2.1

/-- Net effect of CPython `_strptime._calc_julian_from_V` followed by the
conversion of (year, day-of-year) to a date: the ordinal of the date
with ISO year `g`, ISO week `w`, ISO weekday `u`. The correction term
is `date(g, 1, 4).isoweekday() + 3`. -/
def isoOrdinalGVu (g w u : Int) : Int :=
  ymd2ord g 1 1 - 1 + (7 * w + u - (isoweekdayOfOrd (ymd2ord g 1 4) + 3))

/-- CPython `datetime.strptime(s, "%G-%V-%u").date()` applied to the
string `s = f"{g}-{w}-{u}"` (the only shape the repository builds).
The `%G` directive compiles to a four-digit pattern, so it accepts
exactly 1000..9999; `%V` compiles to `5[0-3]|0[1-9]|[1-4]\d|\d`, which
on an unpadded decimal accepts exactly 0..53; `%u` accepts 1..7.
Outside those ranges strptime raises ValueError, modelled as `none`. -/
def strptimeGVu (g w u : Int) : Option Int :=
  if (1000 ≤ g ∧ g ≤ 9999) ∧ (0 ≤ w ∧ w ≤ 53) ∧ (1 ≤ u ∧ u ≤ 7) then
    some (isoOrdinalGVu g w u)
  else
    none

/-- CPython datetime `_ord2ymd`: inverse of `ymd2ord`, via the 400-year
(146097 days), 100-year (36524 days) and 4-year (1461 days) cycles. -/
def ord2ymd (n0 : Int) : Int × Int × Int :=
  let n := n0 - 1
  let n400 := n / 146097
  let r400 := n % 146097
  let n100 := r400 / 36524
  let r100 := r400 % 36524
  let n4 := r100 / 1461
  let r4 := r100 % 1461
  let n1 := r4 / 365
  let r1 := r4 % 365
  let year := n400 * 400 + 1 + n100 * 100 + n4 * 4 + n1
  if n1 == 4 || n100 == 4 then
    (year - 1, 12, 31)
  else
    let month := (r1 + 50) / 32
    let preceding := daysBeforeMonth year month
    if preceding > r1 then
      (year, month - 1, r1 - (preceding - daysInMonth year (month - 1)) + 1)
    else
      (year, month, r1 - preceding + 1)

/-- Decimal digits of a nonnegative integer, zero-padded on the left to
width `k` (Python `"%0kd"`). -/
def padInt (k : Nat) (n : Int) : String :=
  let s := toString n.toNat
  ⟨List.replicate (k - s.length) (Char.ofNat 48)⟩ ++ s

/-- Python `str(date)`: ISO format `YYYY-MM-DD`. -/
def dateStr (n : Int) : String :=
  let y := (ord2ymd n).1
  let m := (ord2ymd n).2.1
  let d := (ord2ymd n).2.2
  padInt 4 y ++ "-" ++ padInt 2 m ++ "-" ++ padInt 2 d

/-- Python `date.strftime("%V")`: the ISO week number of the date,
zero-padded to two digits. `date.isocalendar` reads the calendar year
of the date, recovered here with `ord2ymd`. -/
def isoWeekStr (n : Int) : String :=
  padInt 2 (isocalendarAux (ord2ymd n).1 n).2.1

/-- The Event dataclass of generate_schedule.py: a name and a start and
end date (stored as proleptic Gregorian ordinals). Dataclass equality
is field-wise equality. -/
structure Event where
  name : String
  start : Int
  «end» : Int
deriving DecidableEq, Repr

/-- The Participant dataclass of generate_schedule.py: a name and a list
of assigned events. Dataclass equality is field-wise equality. -/
structure Participant where
  name : String
  events : List Event
deriving DecidableEq, Repr

/-- Python `==` on Event dataclasses. -/
instance : BEq Event := ⟨fun a b => decide (a = b)⟩

/-- Python `==` on Participant dataclasses. -/
instance : BEq Participant := ⟨fun a b => decide (a = b)⟩

instance : LawfulBEq Event := ⟨fun h => of_decide_eq_true h, fun {_} => decide_eq_true rfl⟩

instance : LawfulBEq Participant := ⟨fun h => of_decide_eq_true h, fun {_} => decide_eq_true rfl⟩

/-- Python list indexing as used on line 82: the index expression there
lies in `[-1, n-1]`, and a negative index counts from the end. -/
def pyListIdx (i : Int) (n : Nat) : Nat :=
  if i < 0 then (i + n).toNat else i.toNat

/-- The index expression of line 82,
`(start_idx + week) % num_assignees - 1`, resolved through Python list
indexing (negative wraps to the end). -/
def assignIdx (startIdx n w : Nat) : Nat :=
  pyListIdx (((startIdx : Int) + (w : Int)) % (n : Int) - 1) n

/-- In-place update of the element at an index (Python
`lst[i].events.append(...)` mutates the element at `i`); out-of-range
indices leave the list unchanged (they do not occur in this code). -/
def modifyIdx : List α → Nat → (α → α) → List α
  | [], _, _ => []
  | x :: xs, 0, f => f x :: xs
  | x :: xs, n + 1, f => x :: modifyIdx xs n f

/-- The Event constructed on lines 83-87 for a given week, with both
strptime calls; `none` when either date string fails to parse. -/
def mkEventOfWeek (year : Int) (event : String) (w : Nat) : Option Event :=
  match strptimeGVu year (w : Int) 1, strptimeGVu year ((w : Int) + 1) 1 with
  | some s, some e => some ⟨event, s, e⟩
  | _, _ => none

/-- The Event of week `w`: what `mkEventOfWeek` yields whenever both
strptime calls succeed. -/
def weekEvent (year : Int) (event : String) (w : Nat) : Event :=
  ⟨event, isoOrdinalGVu year (w : Int) 1, isoOrdinalGVu year ((w : Int) + 1) 1⟩

/-- The for-loop of lines 79-88 over the remaining week numbers: each
iteration appends the Event of the week to the participant selected by
`assignIdx`; a strptime failure raises (modelled as `Except.error`),
discarding the accumulated list. -/
def assignLoop (year : Int) (event : String) (startIdx n : Nat) :
    List Nat → List Participant → Except String (List Participant)
  | [], acc => .ok acc
  | w :: ws, acc =>
    match mkEventOfWeek year event w with
    | some ev =>
        assignLoop year event startIdx n ws
          (modifyIdx acc (assignIdx startIdx n w)
            (fun p => ⟨p.name, p.events ++ [ev]⟩))
    | none => .error "time data does not match format %G-%V-%u"

/-- Lines 67-70: `assignees.index(next(p for p in assignees if p.name ==
start_participant))` — find the first participant whose name matches,
then locate it again by dataclass equality with `list.index`. `none`
models the StopIteration of an exhausted generator. -/
def python_start_idx (l : List Participant) (s : String) : Option Nat :=
  (l.find? (fun p => p.name == s)).map (fun p => l.indexOf p)

/-- The function `assign_weeks` of generate_schedule.py. `copy.deepcopy`
is the identity on immutable values, so the copied list is the input
list itself here (the heap model below accounts for object identity).
The not-found RuntimeError and the strptime ValueError are both
modelled as `Except.error` with distinct messages. -/
def assign_weeks (participants : List Participant) (year : Int)
    (event : String) (start_participant : String) :
    Except String (List Participant) :=
  match python_start_idx participants start_participant with
  | none => .error "start_participant was not found in list of participants"
  | some start_idx =>
      assignLoop year event start_idx participants.length
        (List.range' 1 (lastWeek year).toNat) participants

/-- A heap of Participant objects addressed by natural numbers, with a
bump allocator: every address at or above `next` is free. Event lists
are owned by their Participant object, matching the code, which only
ever mutates a participant through `.events.append`. -/
structure Heap where
  mem : Nat → Participant
  next : Nat

/-- Allocate a fresh Participant object. -/
def Heap.alloc (h : Heap) (p : Participant) : Heap × Nat :=
  (⟨fun a => if a = h.next then p else h.mem a, h.next + 1⟩, h.next)

/-- Mutate the object at address `a` in place. -/
def Heap.mutate (h : Heap) (a : Nat) (f : Participant → Participant) : Heap :=
  ⟨fun b => if b = a then f (h.mem b) else h.mem b, h.next⟩

/-- Line 65, `[copy.deepcopy(p) for p in participants]`: allocate a
fresh copy of each object the input addresses point to, left to right,
returning the new heap and the list of fresh addresses. -/
def deepcopyList (h : Heap) : List Nat → Heap × List Nat
  | [] => (h, [])
  | a :: as =>
    let r1 := h.alloc (h.mem a)
    let r2 := deepcopyList r1.1 as
    (r2.1, r1.2 :: r2.2)

/-- The loop of lines 79-88 acting on the heap: each iteration mutates
the copied object selected by `assignIdx`, appending the Event of the
week; a strptime failure raises, leaving the heap as already mutated
(the copies are garbage then, the originals untouched). -/
def heapAssignLoop (year : Int) (event : String) (startIdx n : Nat)
    (addrs : List Nat) :
    List Nat → Heap → Heap × Except String Unit
  | [], h => (h, .ok ())
  | w :: ws, h =>
    match mkEventOfWeek year event w with
    | some ev =>
        match addrs.get? (assignIdx startIdx n w) with
        | some a =>
            heapAssignLoop year event startIdx n addrs ws
              (h.mutate a (fun p => ⟨p.name, p.events ++ [ev]⟩))
        | none => heapAssignLoop year event startIdx n addrs ws h
    | none => (h, .error "time data does not match format %G-%V-%u")

/-- `assign_weeks` acting on the heap: the caller passes the addresses
of its Participant objects; the returned addresses (on success) are
those of the deep copies. Mirrors `assign_weeks` step for step. -/
def assign_weeks_heap (h : Heap) (addrs : List Nat) (year : Int)
    (event : String) (start_participant : String) :
    Heap × Except String (List Nat) :=
  let h1 := (deepcopyList h addrs).1
  let newAddrs := (deepcopyList h addrs).2
  match python_start_idx (newAddrs.map h1.mem) start_participant with
  | none => (h1, .error "start_participant was not found in list of participants")
  | some start_idx =>
      let r := heapAssignLoop year event start_idx newAddrs.length newAddrs
          (List.range' 1 (lastWeek year).toNat) h1
      match r.2 with
      | .ok () => (r.1, .ok newAddrs)
      | .error e => (r.1, .error e)

/-- Lines 119-123 of generate_schedule.py: the insertion-ordered dict of
event name to list of (participant, event) records;
`events.setdefault(e.name, []); events[e.name].append(...)`. -/
def dictAppend (d : List (String × List (Participant × Event)))
    (k : String) (v : Participant × Event) :
    List (String × List (Participant × Event)) :=
  match d with
  | [] => [(k, [v])]
  | (k1, vs) :: rest =>
      if k1 == k then (k1, vs ++ [v]) :: rest
      else (k1, vs) :: dictAppend rest k v

/-- The nested loop of lines 120-123 building the dict. -/
def buildEventsDict (participants : List Participant) :
    List (String × List (Participant × Event)) :=
  participants.foldl
    (fun acc p => p.events.foldl (fun acc2 e => dictAppend acc2 e.name (p, e)) acc)
    []

/-- The CSV row written for one (participant, event) record on lines
130-139: participant name, two-digit ISO week of the start date, start
date string, end date string. -/
def csvRow (v : Participant × Event) : List String :=
  [v.1.name, isoWeekStr v.2.start, dateStr v.2.start, dateStr v.2.«end»]

/-- The header row written on line 128. -/
def csvHeader : List String :=
  ["Participant", "Week", "Start date", "End date"]

/-- The function `generate_csv` of generate_schedule.py, modelled as the
list of written files: for each dict entry, a file named
`<event name>.csv` whose rows are the header followed by one row per
record, in dict-value order. -/
def generate_csv (participants : List Participant) :
    List (String × List (List String)) :=
  (buildEventsDict participants).map
    (fun kv => (kv.1 ++ ".csv", csvHeader :: kv.2.map csvRow))

/-- Modelled from the spec (glossary and section 4.1): the Monday of ISO
week `w` of ISO year `y`. Per ISO 8601, week 1 is the Monday-started
week containing January 4, so its Monday is January 4 moved back to the
Monday of its week; week `w` starts `7 * (w - 1)` days later. Stated
independently of the strptime algorithm, to compare against it. -/
def specIsoWeekMonday (y w : Int) : Int :=
  (ymd2ord y 1 4 - (ymd2ord y 1 4 - 1) % 7) + 7 * (w - 1)

/-- Membership test of an ordinal in a calendar year, used to state
where a date falls without converting it back to year-month-day. -/
def inCalendarYear (y n : Int) : Prop :=
  ymd2ord y 1 1 ≤ n ∧ n ≤ ymd2ord y 12 31

instance (y n : Int) : Decidable (inCalendarYear y n) := by
  unfold inCalendarYear; infer_instance

/-- All (participant, event) records of a roster, in participant order
and then event order — the iteration order of the loops on lines
120-123 and the row order the spec describes for the tabular export. -/
def pairsOf (participants : List Participant) : List (Participant × Event) :=
  (participants.map (fun p => p.events.map (fun e => (p, e)))).flatten

/-- The keys of `ks` not in `seen`, first occurrences only, in order of
first occurrence — the spec-side description of which files the tabular
export writes. -/
def newKeys (seen : List String) : List String → List String
  | [] => []
  | k :: ks => if k ∈ seen then newKeys seen ks else k :: newKeys (k :: seen) ks

/-- Total number of events held by a roster. -/
def totalEvents (l : List Participant) : Nat :=
  (l.map (fun p => p.events.length)).sum

/-- A two-name roster used by the concrete instantiations below. -/
def wRoster : List Participant := [⟨"A", []⟩, ⟨"B", []⟩]

/-- What `assign_weeks wRoster 2019 "x" "A"` evaluates to: the code
computes `last_week 2019 = 1`, so a single event is appended, the ISO
week 1 of 2019 (Monday 2018-12-31, ordinal 737059, to Monday
2019-01-07, ordinal 737066). -/
def wResult : List Participant := [⟨"A", [⟨"x", 737059, 737066⟩]⟩, ⟨"B", []⟩]

/-- A roster with a duplicated name. -/
def wDupRoster : List Participant := [⟨"A", []⟩, ⟨"A", []⟩]

lemma sub_one_mod_eq (a n : Nat) (ha : 1 ≤ a) (hn : 1 ≤ n) :
    (a - 1) % n = if a % n = 0 then n - 1 else a % n - 1 := by
  by_cases h0 : a % n = 0
  · rw [if_pos h0]
    obtain ⟨k, hk⟩ : n ∣ a := Nat.dvd_of_mod_eq_zero h0
    have hk1 : 1 ≤ k := by
      rcases Nat.eq_zero_or_pos k with h | h
      · subst h
        simp only [Nat.mul_zero] at hk
        omega
      · exact h
    obtain ⟨k1, rfl⟩ : ∃ k1, k = k1 + 1 := ⟨k - 1, by omega⟩
    have key : a - 1 = n * k1 + (n - 1) := by
      rw [hk, Nat.mul_succ]
      omega
    rw [key, Nat.mul_add_mod]
    exact Nat.mod_eq_of_lt (by omega)
  · rw [if_neg h0]
    have hq : n * (a / n) + a % n = a := Nat.div_add_mod a n
    have hr : a % n < n := Nat.mod_lt _ hn
    have key : a - 1 = n * (a / n) + (a % n - 1) := by omega
    rw [key, Nat.mul_add_mod]
    exact Nat.mod_eq_of_lt (by omega)

lemma assignIdx_eq (si n w : Nat) (hn : 1 ≤ n) (hw : 1 ≤ w) :
    assignIdx si n w = (si + w - 1) % n := by
  unfold assignIdx pyListIdx
  have hcast : ((si : Int) + (w : Int)) % (n : Int) = (((si + w) % n : Nat) : Int) := by
    push_cast
    ring_nf
  rw [hcast, sub_one_mod_eq (si + w) n (by omega) hn]
  have hr : (si + w) % n < n := Nat.mod_lt _ hn
  by_cases h0 : (si + w) % n = 0
  · rw [if_pos h0, h0]
    rw [if_pos (by norm_num)]
    omega
  · rw [if_neg h0, if_neg (by push_cast; omega)]
    omega

lemma isoOrdinalGVu_eq_specMonday (y w : Int) :
    isoOrdinalGVu y w 1 = specIsoWeekMonday y w := by
  simp only [isoOrdinalGVu, specIsoWeekMonday, isoweekdayOfOrd, ymd2ord]
  split_ifs with h <;> simp_all [beq_iff_eq] <;> omega

lemma weekEvent_end_eq (y : Int) (ev : String) (w : Nat) :
    (weekEvent y ev w).«end» = (weekEvent y ev w).start + 7 := by
  simp only [weekEvent, isoOrdinalGVu]
  omega

lemma lastWeek_pos (y : Int) : 1 ≤ lastWeek y := by
  simp only [lastWeek, isocalendarYMD, isocalendarAux, isoweek1monday]
  have h12 : daysBeforeMonth y 12 = 334 + (if isLeap y then 1 else 0) := by rfl
  have h1 : daysBeforeMonth y 1 = 0 := by rfl
  simp only [ymd2ord, h12, h1]
  split_ifs with hl h1 h2 h3 <;> simp_all <;> omega

lemma assignIdx_lt (si n w : Nat) (hn : 1 ≤ n) (hw : 1 ≤ w) :
    assignIdx si n w < n := by
  rw [assignIdx_eq si n w hn hw]
  exact Nat.mod_lt _ hn

lemma assignIdx_week1 (si n : Nat) (hn : 1 ≤ n) (hsi : si < n) :
    assignIdx si n 1 = si := by
  rw [assignIdx_eq si n 1 hn (le_refl 1)]
  simp only [Nat.add_sub_cancel]
  exact Nat.mod_eq_of_lt hsi

lemma assignIdx_wrap (si n w : Nat) (hn : 1 ≤ n) (hw : 1 ≤ w)
    (h0 : (si + w) % n = 0) : assignIdx si n w = n - 1 := by
  rw [assignIdx_eq si n w hn hw, sub_one_mod_eq (si + w) n (by omega) hn, if_pos h0]

lemma modifyIdx_getElem? (l : List α) (n : Nat) (f : α → α) (i : Nat) :
    (modifyIdx l n f)[i]? = if i = n then Option.map f l[i]? else l[i]? := by
  induction l generalizing n i with
  | nil => simp [modifyIdx]
  | cons x xs ih =>
    cases n with
    | zero =>
      cases i with
      | zero => simp [modifyIdx]
      | succ j => simp [modifyIdx]
    | succ m =>
      cases i with
      | zero => simp [modifyIdx]
      | succ j => simp [modifyIdx, ih]

lemma modifyIdx_length (l : List α) (n : Nat) (f : α → α) :
    (modifyIdx l n f).length = l.length := by
  induction l generalizing n with
  | nil => simp [modifyIdx]
  | cons x xs ih =>
    cases n with
    | zero => simp [modifyIdx]
    | succ m => simp [modifyIdx, ih]

lemma find_name_spec (l : List Participant) (s : String) (p : Participant)
    (h : l.find? (fun q => q.name == s) = some p) :
    p.name = s ∧ l.indexOf p < l.length ∧ l[l.indexOf p]? = some p ∧
      ∀ j < l.indexOf p, ∀ q, l[j]? = some q → q.name ≠ s := by
  induction l with
  | nil => simp at h
  | cons x xs ih =>
    by_cases hx : x.name = s
    · rw [List.find?_cons_of_pos _ (by simpa using hx)] at h
      obtain rfl : x = p := by injection h
      rw [List.indexOf_cons_self]
      refine ⟨hx, by simp, by simp, ?_⟩
      intro j hj
      omega
    · rw [List.find?_cons_of_neg _ (by simpa using hx)] at h
      obtain ⟨hps, hlt, hget, hmin⟩ := ih h
      have hxp : x ≠ p := by
        intro hc
        exact hx (hc ▸ hps)
      rw [List.indexOf_cons_ne _ hxp]
      refine ⟨hps, by simpa using hlt, by simpa using hget, ?_⟩
      intro j hj q hq
      cases j with
      | zero =>
        rw [List.getElem?_cons_zero] at hq
        injection hq with hq1
        exact hq1 ▸ hx
      | succ j1 =>
        rw [List.getElem?_cons_succ] at hq
        exact hmin j1 (by omega) q hq

lemma mkEventOfWeek_eq_some (y : Int) (ev : String) (w : Nat)
    (hy1 : 1000 ≤ y) (hy2 : y ≤ 9999) (hw1 : 1 ≤ w) (hw2 : w ≤ 52) :
    mkEventOfWeek y ev w = some (weekEvent y ev w) := by
  unfold mkEventOfWeek strptimeGVu
  rw [if_pos (by constructor <;> [skip; constructor] <;> constructor <;> push_cast <;> omega)]
  rw [if_pos (by constructor <;> [skip; constructor] <;> constructor <;> push_cast <;> omega)]
  rfl

lemma mkEventOfWeek_some_inv (y : Int) (ev : String) (w : Nat) (e : Event)
    (h : mkEventOfWeek y ev w = some e) : e = weekEvent y ev w := by
  unfold mkEventOfWeek strptimeGVu at h
  split_ifs at h
  all_goals simp_all [weekEvent]

lemma assignLoop_char (y : Int) (ev : String) (si n : Nat) (ws : List Nat)
    (l : List Participant)
    (H : ∀ w ∈ ws, mkEventOfWeek y ev w = some (weekEvent y ev w)) :
    ∃ res, assignLoop y ev si n ws l = .ok res ∧ res.length = l.length ∧
      ∀ i, res[i]? = Option.map
        (fun p => Participant.mk p.name
          (p.events ++ (ws.filter (fun w => assignIdx si n w == i)).map (weekEvent y ev)))
        l[i]? := by
  induction ws generalizing l with
  | nil =>
    refine ⟨l, rfl, rfl, fun i => ?_⟩
    cases h : l[i]? <;> simp
  | cons w ws ih =>
    simp only [assignLoop, H w (List.mem_cons_self w ws)]
    obtain ⟨res, hres, hlen, hpt⟩ :=
      ih (modifyIdx l (assignIdx si n w)
            (fun p => ⟨p.name, p.events ++ [weekEvent y ev w]⟩))
        (fun w1 hw1 => H w1 (List.mem_cons_of_mem _ hw1))
    refine ⟨res, hres, by rw [hlen, modifyIdx_length], fun i => ?_⟩
    rw [hpt i, modifyIdx_getElem?]
    by_cases hi : i = assignIdx si n w
    · rw [if_pos hi, List.filter_cons, if_pos (by simpa using hi.symm)]
      cases h : l[i]? <;> simp
    · rw [if_neg hi, List.filter_cons, if_neg (by simpa using fun hc => hi hc.symm)]

lemma assignLoop_ok_inv (y : Int) (ev : String) (si n : Nat) (ws : List Nat)
    (l res : List Participant) (h : assignLoop y ev si n ws l = .ok res) :
    ∀ w ∈ ws, mkEventOfWeek y ev w = some (weekEvent y ev w) := by
  induction ws generalizing l with
  | nil => intro w hw; simp at hw
  | cons w ws ih =>
    intro w1 hw1
    rw [assignLoop] at h
    cases hmk : mkEventOfWeek y ev w with
    | none => rw [hmk] at h; simp at h
    | some e =>
      rw [hmk] at h
      rcases List.mem_cons.1 hw1 with rfl | hmem
      · rw [hmk, mkEventOfWeek_some_inv y ev w1 e hmk]
      · exact ih _ h w1 hmem

lemma assign_weeks_ok_char (l : List Participant) (y : Int) (ev s : String)
    (res : List Participant) (h : assign_weeks l y ev s = .ok res) :
    ∃ p, l.find? (fun q => q.name == s) = some p ∧
      res.length = l.length ∧
      ∀ i, res[i]? = Option.map
        (fun q => Participant.mk q.name
          (q.events ++ ((List.range' 1 (lastWeek y).toNat).filter
              (fun w => assignIdx (l.indexOf p) l.length w == i)).map (weekEvent y ev)))
        l[i]? := by
  unfold assign_weeks python_start_idx at h
  cases hf : l.find? (fun q => q.name == s) with
  | none => rw [hf] at h; simp at h
  | some p =>
    rw [hf] at h
    simp only [Option.map_some'] at h
    have H := assignLoop_ok_inv y ev (l.indexOf p) l.length _ l res h
    obtain ⟨res1, hres1, hlen1, hpt1⟩ :=
      assignLoop_char y ev (l.indexOf p) l.length _ l H
    rw [hres1] at h
    injection h with h
    subst h
    exact ⟨p, rfl, hlen1, hpt1⟩

lemma assign_weeks_ok_exists (l : List Participant) (y : Int) (ev s : String)
    (Hname : ∃ p ∈ l, p.name = s) (hy1 : 1000 ≤ y) (hy2 : y ≤ 9999)
    (hlw : lastWeek y ≤ 52) :
    ∃ res, assign_weeks l y ev s = .ok res := by
  have hsome : (l.find? (fun q => q.name == s)).isSome := by
    rw [List.find?_isSome]
    obtain ⟨p, hp, hn⟩ := Hname
    exact ⟨p, hp, by simpa using hn⟩
  obtain ⟨p, hp⟩ := Option.isSome_iff_exists.1 hsome
  have H : ∀ w ∈ List.range' 1 (lastWeek y).toNat,
      mkEventOfWeek y ev w = some (weekEvent y ev w) := by
    intro w hw
    rw [List.mem_range'_1] at hw
    have hlwn : (lastWeek y).toNat ≤ 52 := by omega
    exact mkEventOfWeek_eq_some y ev w hy1 hy2 (by omega) (by omega)
  obtain ⟨res1, hres1, _, _⟩ :=
    assignLoop_char y ev (l.indexOf p) l.length _ l H
  refine ⟨res1, ?_⟩
  unfold assign_weeks python_start_idx
  rw [hp]
  simpa using hres1

lemma deepcopyList_spec : ∀ (as : List Nat) (h : Heap),
    h.next ≤ (deepcopyList h as).1.next ∧
    (∀ a, a < h.next → (deepcopyList h as).1.mem a = h.mem a) ∧
    (∀ b ∈ (deepcopyList h as).2, h.next ≤ b ∧ b < (deepcopyList h as).1.next)
  | [], h => by
    refine ⟨le_refl _, fun a _ => rfl, fun b hb => ?_⟩
    simp [deepcopyList] at hb
  | a :: as, h => by
    obtain ⟨hle, hmem, hfresh⟩ := deepcopyList_spec as (h.alloc (h.mem a)).1
    have halloc1 : (h.alloc (h.mem a)).1.next = h.next + 1 := rfl
    have halloc2 : ∀ b, b < h.next → (h.alloc (h.mem a)).1.mem b = h.mem b := by
      intro b hb
      simp only [Heap.alloc]
      rw [if_neg (by omega)]
    simp only [deepcopyList]
    refine ⟨by omega, fun b hb => ?_, fun b hb => ?_⟩
    · rw [hmem b (by omega), halloc2 b hb]
    · rcases List.mem_cons.1 hb with hb1 | hmem2
      · have hb2 : b = h.next := hb1
        exact ⟨by omega, by omega⟩
      · obtain ⟨hx1, hx2⟩ := hfresh b hmem2
        exact ⟨by omega, by omega⟩

lemma heapAssignLoop_spec (y : Int) (ev : String) (si n : Nat)
    (addrs : List Nat) (lo : Nat) (haddr : ∀ a ∈ addrs, lo ≤ a) :
    ∀ (ws : List Nat) (h : Heap),
      (heapAssignLoop y ev si n addrs ws h).1.next = h.next ∧
      ∀ b, b < lo → (heapAssignLoop y ev si n addrs ws h).1.mem b = h.mem b
  | [], h => ⟨rfl, fun b _ => rfl⟩
  | w :: ws, h => by
    simp only [heapAssignLoop]
    cases hmk : mkEventOfWeek y ev w with
    | none => exact ⟨rfl, fun b _ => rfl⟩
    | some e =>
      cases hget : addrs.get? (assignIdx si n w) with
      | none => exact heapAssignLoop_spec y ev si n addrs lo haddr ws h
      | some a =>
        have ha : lo ≤ a := haddr a (List.get?_mem hget)
        obtain ⟨hn1, hm1⟩ :=
          heapAssignLoop_spec y ev si n addrs lo haddr ws
            (h.mutate a (fun p => ⟨p.name, p.events ++ [e]⟩))
        refine ⟨by rw [hn1]; rfl, fun b hb => ?_⟩
        rw [hm1 b hb]
        simp only [Heap.mutate]
        rw [if_neg (by omega)]

lemma assign_weeks_heap_frame (h : Heap) (addrs : List Nat) (y : Int)
    (ev s : String) (hvalid : ∀ a ∈ addrs, a < h.next) :
    (∀ b, b < h.next →
      (assign_weeks_heap h addrs y ev s).1.mem b = h.mem b) ∧
    (∀ out, (assign_weeks_heap h addrs y ev s).2 = .ok out →
      ∀ b ∈ out, h.next ≤ b ∧ b ∉ addrs) := by
  obtain ⟨hle, hmem, hfresh⟩ := deepcopyList_spec addrs h
  have hlo : ∀ a ∈ (deepcopyList h addrs).2, h.next ≤ a :=
    fun a ha => (hfresh a ha).1
  simp only [assign_weeks_heap]
  cases hpi : python_start_idx
      (List.map (deepcopyList h addrs).1.mem (deepcopyList h addrs).2) s with
  | none =>
    refine ⟨fun b hb => hmem b hb, fun out hout => ?_⟩
    simp at hout
  | some si =>
    dsimp only
    obtain ⟨hn1, hm1⟩ := heapAssignLoop_spec y ev si
      (deepcopyList h addrs).2.length (deepcopyList h addrs).2 h.next hlo
      (List.range' 1 (lastWeek y).toNat) (deepcopyList h addrs).1
    cases hr : (heapAssignLoop y ev si (deepcopyList h addrs).2.length
        (deepcopyList h addrs).2 (List.range' 1 (lastWeek y).toNat)
        (deepcopyList h addrs).1).2 with
    | ok u =>
      cases u
      refine ⟨fun b hb => ?_, fun out hout b hb => ?_⟩
      · dsimp only
        rw [hm1 b hb]
        exact hmem b hb
      · dsimp only at hout
        simp only [Except.ok.injEq] at hout
        subst hout
        refine ⟨hlo b hb, fun hc => ?_⟩
        have h1 := hvalid b hc
        have h2 := hlo b hb
        omega
    | error e =>
      refine ⟨fun b hb => ?_, fun out hout => ?_⟩
      · dsimp only
        rw [hm1 b hb]
        exact hmem b hb
      · dsimp only at hout
        simp at hout

lemma dictAppend_keys_mem (d : List (String × List (Participant × Event)))
    (k : String) (v : Participant × Event) (hk : k ∈ d.map Prod.fst) :
    (dictAppend d k v).map Prod.fst = d.map Prod.fst := by
  induction d with
  | nil => simp at hk
  | cons hd tl ih =>
    obtain ⟨k1, vs⟩ := hd
    simp only [dictAppend]
    by_cases hkk : k1 = k
    · rw [if_pos (by simpa using hkk)]
      simp
    · rw [if_neg (by simpa using hkk)]
      have hk2 : k ∈ tl.map Prod.fst := by
        simp only [List.map_cons, List.mem_cons] at hk
        rcases hk with hc | hc
        · exact absurd hc.symm hkk
        · exact hc
      simp only [List.map_cons]
      rw [ih hk2]

lemma dictAppend_not_mem_keys (d : List (String × List (Participant × Event)))
    (k : String) (v : Participant × Event) (hk : k ∉ d.map Prod.fst) :
    dictAppend d k v = d ++ [(k, [v])] := by
  induction d with
  | nil => rfl
  | cons hd tl ih =>
    obtain ⟨k1, vs⟩ := hd
    simp only [dictAppend]
    have hkk : k1 ≠ k := by
      intro hc
      exact hk (by simp [hc])
    rw [if_neg (by simpa using hkk)]
    simp only [List.cons_append, List.cons.injEq, true_and]
    exact ih (fun hc => hk (by simp [hc]))

lemma dictAppend_keys_nodup (d : List (String × List (Participant × Event)))
    (k : String) (v : Participant × Event)
    (hnd : (d.map Prod.fst).Nodup) :
    ((dictAppend d k v).map Prod.fst).Nodup := by
  by_cases hk : k ∈ d.map Prod.fst
  · rw [dictAppend_keys_mem d k v hk]
    exact hnd
  · rw [dictAppend_not_mem_keys d k v hk]
    simp only [List.map_append, List.map_cons, List.map_nil]
    simp [List.nodup_append, hnd, hk]

lemma mem_newKeys (x : String) (ks : List String) : ∀ (seen : List String),
    x ∈ newKeys seen ks ↔ x ∈ ks ∧ x ∉ seen := by
  induction ks with
  | nil =>
    intro seen
    simp [newKeys]
  | cons k ks ih =>
    intro seen
    simp only [newKeys]
    by_cases hk : k ∈ seen
    · rw [if_pos hk, ih seen]
      constructor
      · exact fun h => ⟨List.mem_cons_of_mem _ h.1, h.2⟩
      · rintro ⟨h1, h2⟩
        rcases List.mem_cons.1 h1 with rfl | h1
        · exact absurd hk h2
        · exact ⟨h1, h2⟩
    · rw [if_neg hk]
      by_cases hxk : x = k
      · subst hxk
        simp [hk]
      · simp only [List.mem_cons, hxk, false_or, ih (k :: seen)]

lemma nodup_newKeys : ∀ (ks seen : List String), (newKeys seen ks).Nodup
  | [], seen => by simp [newKeys]
  | k :: ks, seen => by
    simp only [newKeys]
    by_cases hk : k ∈ seen
    · rw [if_pos hk]
      exact nodup_newKeys ks seen
    · rw [if_neg hk]
      refine List.Nodup.cons ?_ (nodup_newKeys ks (k :: seen))
      intro hc
      exact ((mem_newKeys k ks (k :: seen)).1 hc).2 (List.mem_cons_self k seen)

lemma newKeys_congr (s1 s2 : List String) (h : ∀ x, x ∈ s1 ↔ x ∈ s2) :
    ∀ ks, newKeys s1 ks = newKeys s2 ks := by
  intro ks
  induction ks generalizing s1 s2 with
  | nil => rfl
  | cons k ks ih =>
    simp only [newKeys]
    by_cases hk : k ∈ s1
    · rw [if_pos hk, if_pos ((h k).1 hk)]
      exact ih s1 s2 h
    · rw [if_neg hk, if_neg (fun hc => hk ((h k).2 hc))]
      rw [ih (k :: s1) (k :: s2) ?_]
      intro x
      simp only [List.mem_cons, h x]

lemma dictAppend_map_filter (pe : Participant × Event)
    (ps : List (Participant × Event)) :
    ∀ (d : List (String × List (Participant × Event))),
      (d.map Prod.fst).Nodup → pe.2.name ∈ d.map Prod.fst →
      (dictAppend d pe.2.name pe).map
          (fun kv => (kv.1, kv.2 ++ ps.filter (fun q => q.2.name == kv.1))) =
        d.map (fun kv => (kv.1, kv.2 ++ (pe :: ps).filter (fun q => q.2.name == kv.1)))
  | [], _, hk => by simp at hk
  | (k1, vs) :: tl, hnd, hk => by
    simp only [dictAppend]
    by_cases hkk : k1 = pe.2.name
    · rw [if_pos (by simpa using hkk)]
      simp only [List.map_cons]
      congr 1
      · rw [List.filter_cons, if_pos (by simpa using hkk.symm)]
        simp
      · have hknotin : k1 ∉ tl.map Prod.fst := by
          simp only [List.map_cons, List.nodup_cons] at hnd
          exact hnd.1
        apply List.map_congr_left
        intro kv hkv
        have hne : kv.1 ≠ pe.2.name := by
          intro hc
          apply hknotin
          rw [hkk, ← hc]
          exact List.mem_map_of_mem Prod.fst hkv
        rw [List.filter_cons, if_neg (by simpa using fun hc => hne hc.symm)]
    · rw [if_neg (by simpa using hkk)]
      simp only [List.map_cons]
      congr 1
      · rw [List.filter_cons, if_neg (by simpa using fun hc => hkk hc.symm)]
      · have hnd2 : (tl.map Prod.fst).Nodup := by
          simp only [List.map_cons, List.nodup_cons] at hnd
          exact hnd.2
        have hk2 : pe.2.name ∈ tl.map Prod.fst := by
          simp only [List.map_cons, List.mem_cons] at hk
          rcases hk with hc | hc
          · exact absurd hc.symm hkk
          · exact hc
        exact dictAppend_map_filter pe ps tl hnd2 hk2

lemma foldl_dictAppend_char :
    ∀ (ps : List (Participant × Event))
      (d : List (String × List (Participant × Event))),
      (d.map Prod.fst).Nodup →
      ps.foldl (fun acc pe => dictAppend acc pe.2.name pe) d =
        d.map (fun kv => (kv.1, kv.2 ++ ps.filter (fun q => q.2.name == kv.1))) ++
        (newKeys (d.map Prod.fst) (ps.map (fun pe => pe.2.name))).map
          (fun k => (k, ps.filter (fun q => q.2.name == k)))
  | [], d, hnd => by
    simp [newKeys]
  | pe :: ps, d, hnd => by
    simp only [List.foldl_cons, List.map_cons]
    rw [foldl_dictAppend_char ps (dictAppend d pe.2.name pe)
      (dictAppend_keys_nodup d pe.2.name pe hnd)]
    by_cases hk : pe.2.name ∈ d.map Prod.fst
    · rw [dictAppend_keys_mem d pe.2.name pe hk]
      simp only [newKeys, if_pos hk]
      congr 1
      · exact dictAppend_map_filter pe ps d hnd hk
      · apply List.map_congr_left
        intro j hj
        have hjn : j ∉ d.map Prod.fst := ((mem_newKeys j _ _).1 hj).2
        have hne : j ≠ pe.2.name := fun hc => hjn (hc ▸ hk)
        rw [List.filter_cons, if_neg (by simpa using fun hc => hne hc.symm)]
    · rw [dictAppend_not_mem_keys d pe.2.name pe hk]
      simp only [newKeys, if_neg hk, List.map_append, List.map_cons, List.map_nil]
      rw [newKeys_congr (d.map Prod.fst ++ [pe.2.name]) (pe.2.name :: d.map Prod.fst)
        (by intro x; simp [or_comm]) (ps.map (fun q => q.2.name))]
      have htail : List.map (fun kv => (kv.1, kv.2 ++ ps.filter (fun q => q.2.name == kv.1))) d =
          List.map (fun kv => (kv.1, kv.2 ++ (pe :: ps).filter (fun q => q.2.name == kv.1))) d := by
        apply List.map_congr_left
        intro kv hkv
        have hne : kv.1 ≠ pe.2.name := by
          intro hc
          exact hk (hc ▸ List.mem_map_of_mem Prod.fst hkv)
        rw [List.filter_cons, if_neg (by simpa using fun hc => hne hc.symm)]
      have htail2 : List.map (fun k => (k, ps.filter (fun q => q.2.name == k)))
            (newKeys (pe.2.name :: d.map Prod.fst) (ps.map (fun q => q.2.name))) =
          List.map (fun k => (k, (pe :: ps).filter (fun q => q.2.name == k)))
            (newKeys (pe.2.name :: d.map Prod.fst) (ps.map (fun q => q.2.name))) := by
        apply List.map_congr_left
        intro j hj
        have hjn : j ∉ pe.2.name :: d.map Prod.fst := ((mem_newKeys j _ _).1 hj).2
        have hne : j ≠ pe.2.name := fun hc => hjn (hc ▸ List.mem_cons_self _ _)
        rw [List.filter_cons, if_neg (by simpa using fun hc => hne hc.symm)]
      rw [htail, htail2, List.append_assoc]
      congr 1
      rw [List.singleton_append]
      congr 1
      rw [List.filter_cons, if_pos (by simp)]
      simp

lemma buildEventsDict_eq (l : List Participant) :
    buildEventsDict l =
      (pairsOf l).foldl (fun acc pe => dictAppend acc pe.2.name pe) [] := by
  suffices h : ∀ acc, l.foldl
      (fun acc p => p.events.foldl (fun acc2 e => dictAppend acc2 e.name (p, e)) acc) acc
      = (pairsOf l).foldl (fun acc pe => dictAppend acc pe.2.name pe) acc by
    exact h []
  induction l with
  | nil =>
    intro acc
    rfl
  | cons p l ih =>
    intro acc
    simp only [List.foldl_cons, pairsOf, List.map_cons, List.flatten_cons,
      List.foldl_append]
    have ih2 := ih (List.foldl (fun acc2 e => dictAppend acc2 e.name (p, e)) acc p.events)
    simp only [pairsOf] at ih2
    rw [ih2]
    congr 1
    rw [List.foldl_map]

/-- The grouping characterization of generate_csv, with the spec-side
key list. -/
lemma generate_csv_char (l : List Participant) :
    generate_csv l =
      (newKeys [] ((pairsOf l).map (fun pe => pe.2.name))).map
        (fun k => (k ++ ".csv",
          csvHeader :: ((pairsOf l).filter (fun q => q.2.name == k)).map csvRow)) := by
  unfold generate_csv
  rw [buildEventsDict_eq, foldl_dictAppend_char (pairsOf l) [] (by simp)]
  simp only [List.map_nil, List.nil_append, List.map_map]
  rfl

lemma mem_of_getElem?_eq {α : Type} {l : List α} {i : Nat} {a : α}
    (h : l[i]? = some a) : a ∈ l := by
  obtain ⟨hlt, rfl⟩ := List.getElem?_eq_some_iff.1 h
  exact List.getElem_mem hlt

/-- C2: on a successful call, the events appended to participant `i` are
exactly those of the weeks `w` in `1..last_week` with
`assignIdx start_idx N w = i`, where `assignIdx` resolves
`(start_idx + w) % N - 1` through Python negative indexing; in
particular the week-`w` event lands at that index, and when
`(start_idx + w) % N = 0` that index is the last one, `N - 1`. -/
theorem claim_C2 (l : List Participant) (y : Int) (ev s : String)
    (res : List Participant) (h : assign_weeks l y ev s = .ok res) :
    ∃ p, l.find? (fun q => q.name == s) = some p ∧
      (∀ i, res[i]? = Option.map
        (fun q => Participant.mk q.name
          (q.events ++ ((List.range' 1 (lastWeek y).toNat).filter
            (fun w => assignIdx (l.indexOf p) l.length w == i)).map (weekEvent y ev)))
        l[i]?) ∧
      (∀ w, 1 ≤ w → w ≤ (lastWeek y).toNat →
        ∃ q, res[assignIdx (l.indexOf p) l.length w]? = some q ∧
          weekEvent y ev w ∈ q.events) ∧
      (∀ w, 1 ≤ w → (l.indexOf p + w) % l.length = 0 →
        assignIdx (l.indexOf p) l.length w = l.length - 1) := by
  obtain ⟨p, hf, hlen, hpt⟩ := assign_weeks_ok_char l y ev s res h
  obtain ⟨hname, hlt, hget, hmin⟩ := find_name_spec l s p hf
  have hn1 : 1 ≤ l.length := by omega
  refine ⟨p, hf, hpt, ?_, ?_⟩
  · intro w hw1 hw2
    have hidx : assignIdx (l.indexOf p) l.length w < l.length :=
      assignIdx_lt _ _ _ hn1 hw1
    have hres : res[assignIdx (l.indexOf p) l.length w]? =
        some (Participant.mk (l[assignIdx (l.indexOf p) l.length w]).name
          ((l[assignIdx (l.indexOf p) l.length w]).events ++
            ((List.range' 1 (lastWeek y).toNat).filter
              (fun w2 => assignIdx (l.indexOf p) l.length w2 ==
                assignIdx (l.indexOf p) l.length w)).map (weekEvent y ev))) := by
      rw [hpt _, List.getElem?_eq_getElem hidx]
      rfl
    refine ⟨_, hres, ?_⟩
    apply List.mem_append_right
    apply List.mem_map_of_mem
    rw [List.mem_filter]
    refine ⟨List.mem_range'_1.2 ⟨hw1, by omega⟩, by simp⟩
  · intro w hw1 h0
    exact assignIdx_wrap _ _ _ hn1 hw1 h0

/-- C3: on a successful call, the first participant whose name equals
the start name receives the week-1 event (every earlier index has a
different name). -/
theorem claim_C3 (l : List Participant) (y : Int) (ev s : String)
    (res : List Participant) (h : assign_weeks l y ev s = .ok res) :
    ∃ (i : Nat) (q : Participant), res[i]? = some q ∧ q.name = s ∧
      weekEvent y ev 1 ∈ q.events ∧
      ∀ j, j < i → ∀ (r : Participant), l[j]? = some r → r.name ≠ s := by
  obtain ⟨p, hf, hlen, hpt⟩ := assign_weeks_ok_char l y ev s res h
  obtain ⟨hname, hlt, hget, hmin⟩ := find_name_spec l s p hf
  have hn1 : 1 ≤ l.length := by omega
  have hres : res[l.indexOf p]? =
      some (Participant.mk p.name
        (p.events ++ ((List.range' 1 (lastWeek y).toNat).filter
          (fun w => assignIdx (l.indexOf p) l.length w == l.indexOf p)).map
            (weekEvent y ev))) := by
    rw [hpt _, hget]
    rfl
  refine ⟨l.indexOf p, _, hres, hname, ?_, hmin⟩
  apply List.mem_append_right
  apply List.mem_map_of_mem
  rw [List.mem_filter]
  have hlw := lastWeek_pos y
  refine ⟨List.mem_range'_1.2 ⟨le_refl 1, by omega⟩, ?_⟩
  simp [assignIdx_week1 (l.indexOf p) l.length hn1 hlt]

/-- C4 (amended): the index formula of line 82 with Python negative
indexing is equivalent to the plain zero-based rotation
`(start_idx + w - 1) % N` for every start index, every `N ≥ 1` and
every week `w ≥ 1`. -/
theorem claim_C4 (si n w : Nat) (hn : 1 ≤ n) (hw : 1 ≤ w) :
    assignIdx si n w = (si + w - 1) % n :=
  assignIdx_eq si n w hn hw

theorem claim_C4_witness :
    1 ≤ 4 ∧ 1 ≤ 4 ∧ assignIdx 0 4 4 = (0 + 4 - 1) % 4 :=
  ⟨by decide, by decide, claim_C4 0 4 4 (by decide) (by decide)⟩

/-- C4 (counterexample to the claim as stated): there is no input at all
— in particular none with start index 0 and `(start_idx + w) % N = 0` —
on which the implemented index differs from the naive
`(start_idx + w - 1) % N`; the claimed existence of a difference is
false. -/
theorem claim_C4_counterexample :
    (∃ n w : Nat, 1 ≤ n ∧ 1 ≤ w ∧ (0 + w) % n = 0 ∧
      assignIdx 0 n w ≠ (0 + w - 1) % n) ↔ False := by
  rw [iff_false]
  rintro ⟨n, w, hn, hw, h0, hne⟩
  exact hne (assignIdx_eq 0 n w hn hw)

/-- C5: assign weeks over the heap of Participant objects never changes
any pre-existing object (in particular none reachable from the input
addresses), whether the call succeeds or raises; on success the
returned addresses are all freshly allocated, disjoint from the input
addresses. -/
theorem claim_C5 (h : Heap) (addrs : List Nat) (y : Int) (ev s : String)
    (hvalid : ∀ a ∈ addrs, a < h.next) :
    (∀ b, b < h.next →
      (assign_weeks_heap h addrs y ev s).1.mem b = h.mem b) ∧
    (∀ out, (assign_weeks_heap h addrs y ev s).2 = .ok out →
      ∀ b ∈ out, h.next ≤ b ∧ b ∉ addrs) :=
  assign_weeks_heap_frame h addrs y ev s hvalid

theorem claim_C5_witness :
    (∀ a ∈ ([0] : List Nat), a < 1) ∧
    ((∀ b, b < 1 →
      (assign_weeks_heap ⟨fun _ => ⟨"A", []⟩, 1⟩ [0] 2019 "x" "A").1.mem b =
        (⟨fun _ => ⟨"A", []⟩, 1⟩ : Heap).mem b) ∧
    (∀ out,
      (assign_weeks_heap ⟨fun _ => ⟨"A", []⟩, 1⟩ [0] 2019 "x" "A").2 = .ok out →
      ∀ b ∈ out, 1 ≤ b ∧ b ∉ ([0] : List Nat))) :=
  ⟨by decide, claim_C5 ⟨fun _ => ⟨"A", []⟩, 1⟩ [0] 2019 "x" "A" (by decide)⟩

/-- C7 (amended): every event a successful call appends has the given
label, a start equal to the ISO-8601 Monday of week (year, w) for some
week w in 1..last_week, and an end equal to the Monday of week
(year, w+1), exactly 7 days after the start. (The end of the
last_week event does not always fall in the next calendar year; see the
counterexample.) -/
theorem claim_C7 (l : List Participant) (y : Int) (ev s : String)
    (res : List Participant) (h : assign_weeks l y ev s = .ok res) :
    ∀ (i : Nat) (p q : Participant), l[i]? = some p → res[i]? = some q →
      ∃ new, q.events = p.events ++ new ∧
        ∀ e ∈ new, e.name = ev ∧ e.«end» = e.start + 7 ∧
          ∃ w : Nat, 1 ≤ w ∧ (w : Int) ≤ lastWeek y ∧
            e.start = specIsoWeekMonday y (w : Int) ∧
            e.«end» = specIsoWeekMonday y ((w : Int) + 1) := by
  obtain ⟨p0, hf, hlen, hpt⟩ := assign_weeks_ok_char l y ev s res h
  intro i p q hl hr
  rw [hpt i, hl] at hr
  simp only [Option.map_some'] at hr
  injection hr with hr
  subst hr
  refine ⟨_, rfl, ?_⟩
  intro e he
  obtain ⟨w, hw, rfl⟩ := List.mem_map.1 he
  rw [List.mem_filter] at hw
  have hwr := List.mem_range'_1.1 hw.1
  have hlw1 := lastWeek_pos y
  refine ⟨rfl, weekEvent_end_eq y ev w, w, by omega, by omega, ?_, ?_⟩
  · exact isoOrdinalGVu_eq_specMonday y (w : Int)
  · exact isoOrdinalGVu_eq_specMonday y ((w : Int) + 1)

/-- C8: a successful call returns a list of the same length; position by
position the name is unchanged and the event list is the input event
list with the new events appended at the end. -/
theorem claim_C8 (l : List Participant) (y : Int) (ev s : String)
    (res : List Participant) (h : assign_weeks l y ev s = .ok res) :
    res.length = l.length ∧
    ∀ (i : Nat) (p : Participant), l[i]? = some p →
      ∃ (q : Participant), res[i]? = some q ∧ q.name = p.name ∧
        ∃ new, q.events = p.events ++ new := by
  obtain ⟨p0, hf, hlen, hpt⟩ := assign_weeks_ok_char l y ev s res h
  refine ⟨hlen, fun i p hl => ?_⟩
  rw [hpt i, hl]
  exact ⟨_, rfl, rfl, _, rfl⟩

/-- C9: the tabular export writes one file `<event name>.csv` per
distinct event name; each file is the header row followed by exactly
one row per (participant, event) record with that name, in participant
order and then event order, each row being the participant name, the
two-digit ISO week of the start date, the start date string and the
end date string. -/
theorem claim_C9 (l : List Participant) :
    generate_csv l =
      (newKeys [] ((pairsOf l).map (fun pe => pe.2.name))).map
        (fun k => (k ++ ".csv",
          csvHeader :: ((pairsOf l).filter (fun q => q.2.name == k)).map csvRow)) ∧
    (newKeys [] ((pairsOf l).map (fun pe => pe.2.name))).Nodup ∧
    ∀ k, k ∈ newKeys [] ((pairsOf l).map (fun pe => pe.2.name)) ↔
      ∃ pe ∈ pairsOf l, pe.2.name = k := by
  refine ⟨generate_csv_char l, nodup_newKeys _ _, fun k => ?_⟩
  rw [mem_newKeys]
  simp only [List.mem_map, List.not_mem_nil, not_false_iff, and_true]

/-- C10: with duplicate names allowed, the start-index computation
resolves to the smallest index whose participant bears the start name
(every earlier index has a different name), the not-found failure does
not occur, and for a year the date parsing accepts the call succeeds. -/
theorem claim_C10 (l : List Participant) (s : String) (i j : Nat)
    (p q : Participant) (_hij : i < j) (hi : l[i]? = some p)
    (_hj : l[j]? = some q) (hpn : p.name = s) (_hqn : q.name = s) :
    ∃ (k : Nat) (r : Participant), python_start_idx l s = some k ∧
      l[k]? = some r ∧ r.name = s ∧
      (∀ j2, j2 < k → ∀ (r2 : Participant), l[j2]? = some r2 → r2.name ≠ s) ∧
      ∀ (y : Int) (ev : String), 1000 ≤ y → y ≤ 9999 → lastWeek y ≤ 52 →
        ∃ res, assign_weeks l y ev s = .ok res := by
  have hmem : ∃ x ∈ l, x.name = s := ⟨p, mem_of_getElem?_eq hi, hpn⟩
  have hsome : (l.find? (fun q2 => q2.name == s)).isSome := by
    rw [List.find?_isSome]
    obtain ⟨x, hx, hxn⟩ := hmem
    exact ⟨x, hx, by simpa using hxn⟩
  obtain ⟨p0, hf⟩ := Option.isSome_iff_exists.1 hsome
  obtain ⟨hname, hlt, hget, hmin⟩ := find_name_spec l s p0 hf
  refine ⟨l.indexOf p0, p0, ?_, hget, hname, hmin, ?_⟩
  · unfold python_start_idx
    rw [hf]
    rfl
  · intro y ev hy1 hy2 hlw
    exact assign_weeks_ok_exists l y ev s hmem hy1 hy2 hlw

theorem claim_C2_witness :
    assign_weeks wRoster 2019 "x" "A" = .ok wResult ∧
    (∃ p, wRoster.find? (fun q => q.name == "A") = some p ∧
      (∀ i, wResult[i]? = Option.map
        (fun q => Participant.mk q.name
          (q.events ++ ((List.range' 1 (lastWeek 2019).toNat).filter
            (fun w => assignIdx (wRoster.indexOf p) wRoster.length w == i)).map
              (weekEvent 2019 "x")))
        wRoster[i]?) ∧
      (∀ w, 1 ≤ w → w ≤ (lastWeek 2019).toNat →
        ∃ q, wResult[assignIdx (wRoster.indexOf p) wRoster.length w]? = some q ∧
          weekEvent 2019 "x" w ∈ q.events) ∧
      (∀ w, 1 ≤ w → (wRoster.indexOf p + w) % wRoster.length = 0 →
        assignIdx (wRoster.indexOf p) wRoster.length w = wRoster.length - 1)) := by
  have hh : assign_weeks wRoster 2019 "x" "A" = .ok wResult := by rfl
  exact ⟨hh, claim_C2 wRoster 2019 "x" "A" wResult hh⟩

theorem claim_C3_witness :
    assign_weeks wRoster 2019 "x" "A" = .ok wResult ∧
    (∃ (i : Nat) (q : Participant), wResult[i]? = some q ∧ q.name = "A" ∧
      weekEvent 2019 "x" 1 ∈ q.events ∧
      ∀ j, j < i → ∀ (r : Participant), wRoster[j]? = some r → r.name ≠ "A") := by
  have hh : assign_weeks wRoster 2019 "x" "A" = .ok wResult := by rfl
  exact ⟨hh, claim_C3 wRoster 2019 "x" "A" wResult hh⟩

theorem claim_C7_witness :
    assign_weeks wRoster 2019 "x" "A" = .ok wResult ∧
    (∀ (i : Nat) (p q : Participant), wRoster[i]? = some p →
      wResult[i]? = some q →
      ∃ new, q.events = p.events ++ new ∧
        ∀ e ∈ new, e.name = "x" ∧ e.«end» = e.start + 7 ∧
          ∃ w : Nat, 1 ≤ w ∧ (w : Int) ≤ lastWeek 2019 ∧
            e.start = specIsoWeekMonday 2019 (w : Int) ∧
            e.«end» = specIsoWeekMonday 2019 ((w : Int) + 1)) := by
  have hh : assign_weeks wRoster 2019 "x" "A" = .ok wResult := by rfl
  exact ⟨hh, claim_C7 wRoster 2019 "x" "A" wResult hh⟩

theorem claim_C8_witness :
    assign_weeks wRoster 2019 "x" "A" = .ok wResult ∧
    (wResult.length = wRoster.length ∧
    ∀ (i : Nat) (p : Participant), wRoster[i]? = some p →
      ∃ (q : Participant), wResult[i]? = some q ∧ q.name = p.name ∧
        ∃ new, q.events = p.events ++ new) := by
  have hh : assign_weeks wRoster 2019 "x" "A" = .ok wResult := by rfl
  exact ⟨hh, claim_C8 wRoster 2019 "x" "A" wResult hh⟩

theorem claim_C10_witness :
    (0 : Nat) < 1 ∧ wDupRoster[0]? = some ⟨"A", []⟩ ∧
    wDupRoster[1]? = some ⟨"A", []⟩ ∧
    (Participant.mk "A" []).name = "A" ∧
    (∃ (k : Nat) (r : Participant), python_start_idx wDupRoster "A" = some k ∧
      wDupRoster[k]? = some r ∧ r.name = "A" ∧
      (∀ j2, j2 < k → ∀ (r2 : Participant),
        wDupRoster[j2]? = some r2 → r2.name ≠ "A") ∧
      ∀ (y : Int) (ev : String), 1000 ≤ y → y ≤ 9999 → lastWeek y ≤ 52 →
        ∃ res, assign_weeks wDupRoster y ev "A" = .ok res) := by
  refine ⟨by decide, by rfl, by rfl, by rfl, ?_⟩
  exact claim_C10 wDupRoster "A" 0 1 ⟨"A", []⟩ ⟨"A", []⟩ (by decide)
    (by rfl) (by rfl) rfl rfl

/-- C1: the code does not assign 52 or 53 weeks for every valid year.
December 31 of 2019 falls in ISO week 1 of 2020, so the code computes
`last_week = 1` and appends a single event, although ISO week 52 of
2019 exists (December 28, 2019 lies in it) and weeks 2..52 are left
unassigned. -/
theorem claim_C1_code_evaluation :
    lastWeek 2019 = 1 ∧
    ¬ (lastWeek 2019 = 52 ∨ lastWeek 2019 = 53) ∧
    assign_weeks wRoster 2019 "x" "A" = .ok wResult ∧
    totalEvents wResult = 1 ∧
    (isocalendarYMD 2019 12 28).2.1 = 52 :=
  ⟨by decide, by decide, by rfl, by decide, by decide⟩

/-- C6: the missing start participant is not the only failure mode. For
the 53-week year 2020 the loop reaches week 53 and builds the end-date
string `2020-54-1`, which the `%V` pattern of strptime rejects, so the
call raises even though the start participant is present. -/
theorem claim_C6_code_evaluation :
    (∃ p ∈ ([⟨"Adam Adamsson", []⟩] : List Participant),
      p.name = "Adam Adamsson") ∧
    lastWeek 2020 = 53 ∧
    assign_weeks [⟨"Adam Adamsson", []⟩] 2020 "x" "Adam Adamsson" =
      .error "time data does not match format %G-%V-%u" ∧
    "time data does not match format %G-%V-%u" ≠
      "start_participant was not found in list of participants" :=
  ⟨by decide, by decide, by rfl, by decide⟩

/-- C7 (counterexample to the next-calendar-year clause): for 2019 the
code computes `last_week = 1`, the call succeeds, and the end date of
the week-`last_week` event is January 7, 2019 — inside the same
calendar year, not the next one. -/
theorem claim_C7_counterexample :
    lastWeek 2019 = 1 ∧
    assign_weeks [⟨"A", []⟩] 2019 "x" "A" =
      .ok [⟨"A", [weekEvent 2019 "x" 1]⟩] ∧
    inCalendarYear 2019 (weekEvent 2019 "x" 1).«end» ∧
    ¬ inCalendarYear 2020 (weekEvent 2019 "x" 1).«end» :=
  ⟨by decide, by rfl, by decide, by decide⟩
